import Mathlib

/-
  Verification of the Barnes-Hut octree core of the Planetesimal 3d simulation
  (files src/OctreeNode.js and src/octree.js), embedded shallowly in Lean 4.

  Modelling conventions:
  * JavaScript floating-point numbers are modelled by exact rationals (ℚ).
  * `Math.sqrt` is modelled by `sqrtQ`, which agrees with the real square root
    on rationals that are perfect squares (all concrete inputs used below are).
  * JavaScript object identity (`===`) on bodies is modelled by structural
    equality of `Body`, which carries an `id` field so that distinct JS objects
    are distinguishable even when position and mass coincide.
  * The recursive methods `insert` / `subdivide` of both octree variants can
    recurse without bound (there is no depth cap in the source), so they are
    embedded as fuel-indexed functions returning `Option`: `none` means the
    recursion exceeded the given fuel.  A run of the JS method terminates
    exactly when some fuel suffices.
  * Mutation of `this` is modelled by returning an updated node value; the
    mutated `force` accumulator of the gravity walks is threaded explicitly.
-/

/-- 3D vector with rational components, modelling CANNON.Vec3. -/
structure Vec3 where
  x : ℚ
  y : ℚ
  z : ℚ
deriving DecidableEq, Repr

def Vec3.zero : Vec3 := ⟨0, 0, 0⟩

/-- CANNON.Vec3.vadd. -/
def Vec3.vadd (a b : Vec3) : Vec3 := ⟨a.x + b.x, a.y + b.y, a.z + b.z⟩

/-- CANNON.Vec3.vsub. -/
def Vec3.vsub (a b : Vec3) : Vec3 := ⟨a.x - b.x, a.y - b.y, a.z - b.z⟩

/-- CANNON.Vec3.scale / mult. -/
def Vec3.scale (a : Vec3) (s : ℚ) : Vec3 := ⟨a.x * s, a.y * s, a.z * s⟩

/-- CANNON.Vec3.norm2: squared euclidean norm. -/
def Vec3.norm2 (a : Vec3) : ℚ := a.x * a.x + a.y * a.y + a.z * a.z

/-- CANNON.Vec3.distanceSquared. -/
def Vec3.distanceSquared (a b : Vec3) : ℚ := (a.vsub b).norm2

/-- Model of `Math.sqrt` on rationals: exact on perfect squares (the only
    inputs at which concrete facts are asserted below). -/
def sqrtQ (q : ℚ) : ℚ := Rat.sqrt q

/-- Normalisation of a nonzero vector (CANNON's unit / normalize on a vector of
    positive norm): the vector divided by its length. -/
def Vec3.unitV (a : Vec3) : Vec3 := a.scale (1 / sqrtQ a.norm2)

/-- A point mass handed to the octree each tick: `{ position, mass }` plus a
    stable identity standing for JS reference identity. -/
structure Body where
  id : ℕ
  position : Vec3
  mass : ℚ
deriving DecidableEq, Repr

/-! ## The bucketed octree of src/octree.js -/

/-- The (file-local) OctreeNode class of src/octree.js: scalar `halfSize`,
    an `isLeaf` flag, a bucket `bodies` and a list `children`. -/
inductive BNode : Type where
  | mk (center : Vec3) (halfSize : ℚ) (mass : ℚ) (com : Vec3)
       (isLeaf : Bool) (bodies : List Body) (children : List BNode) : BNode

def BNode.center : BNode → Vec3 | .mk c _ _ _ _ _ _ => c
def BNode.halfSize : BNode → ℚ | .mk _ h _ _ _ _ _ => h
def BNode.mass : BNode → ℚ | .mk _ _ m _ _ _ _ => m
def BNode.com : BNode → Vec3 | .mk _ _ _ v _ _ _ => v
def BNode.isLeaf : BNode → Bool | .mk _ _ _ _ l _ _ => l
def BNode.bodies : BNode → List Body | .mk _ _ _ _ _ bs _ => bs
def BNode.children : BNode → List BNode | .mk _ _ _ _ _ _ cs => cs

/-- `new OctreeNode(center, halfSize)`. -/
def BNode.fresh (center : Vec3) (halfSize : ℚ) : BNode :=
  .mk center halfSize 0 Vec3.zero true [] []

/-- `Octree.MAX_BODIES_PER_NODE`, set to 10 in the Octree constructor. -/
def MAX_BODIES_PER_NODE : ℕ := 10

/-- Closed-interval membership of a point in the cube with the given centre
    and scalar half-size. -/
def boxContains (center : Vec3) (halfSize : ℚ) (p : Vec3) : Prop :=
  center.x - halfSize ≤ p.x ∧ p.x ≤ center.x + halfSize ∧
  center.y - halfSize ≤ p.y ∧ p.y ≤ center.y + halfSize ∧
  center.z - halfSize ≤ p.z ∧ p.z ≤ center.z + halfSize

instance (c : Vec3) (h : ℚ) (p : Vec3) : Decidable (boxContains c h p) := by
  unfold boxContains; infer_instance

/-- OctreeNode.contains (octree.js): closed-interval box membership. -/
def BNode.contains (n : BNode) (p : Vec3) : Prop :=
  boxContains n.center n.halfSize p

instance (n : BNode) (p : Vec3) : Decidable (n.contains p) := by
  unfold BNode.contains; infer_instance

/-- OctreeNode.updateMassDistribution (octree.js) with a non-null body:
    incremental update of `com` and `mass`.  (In ℚ, division by zero is 0;
    in JS a zero `newMass` would give NaN/Infinity components in `com` —
    reachable only with non-positive masses, and never relevant to the mass
    bookkeeping itself.) -/
def BNode.updateMassDistribution (n : BNode) (b : Body) : BNode :=
  match n with
  | .mk c h m com l bs cs =>
    let newMass := m + b.mass
    .mk c h newMass
      ⟨(com.x * m + b.position.x * b.mass) / newMass,
       (com.y * m + b.position.y * b.mass) / newMass,
       (com.z * m + b.position.z * b.mass) / newMass⟩ l bs cs

/-- The 8 fresh children created by OctreeNode.subdivide (octree.js), in the
    source's loop order (x, then y, then z, each from -1 to 1): centers at
    `center ± quarterSize` with half-size `quarterSize = halfSize * 0.5`. -/
def BNode.mkChildren (c : Vec3) (halfSize : ℚ) : List BNode :=
  let q := halfSize * (1/2)
  [ BNode.fresh ⟨c.x - q, c.y - q, c.z - q⟩ q,
    BNode.fresh ⟨c.x - q, c.y - q, c.z + q⟩ q,
    BNode.fresh ⟨c.x - q, c.y + q, c.z - q⟩ q,
    BNode.fresh ⟨c.x - q, c.y + q, c.z + q⟩ q,
    BNode.fresh ⟨c.x + q, c.y - q, c.z - q⟩ q,
    BNode.fresh ⟨c.x + q, c.y - q, c.z + q⟩ q,
    BNode.fresh ⟨c.x + q, c.y + q, c.z - q⟩ q,
    BNode.fresh ⟨c.x + q, c.y + q, c.z + q⟩ q ]

/-- OctreeNode._insertIntoChild (octree.js), parameterised by the recursive
    insert: the body goes into the first child whose region contains its
    position (replaced in place); if no child contains it, the body is
    silently dropped and the children are returned unchanged. -/
def BNode.insertIntoChild (ins : BNode → Body → Option BNode) :
    List BNode → Body → Option (List BNode)
  | [], _ => some []
  | c :: rest, b =>
    if c.contains b.position then (ins c b).map (· :: rest)
    else (BNode.insertIntoChild ins rest b).map (c :: ·)

/-- OctreeNode.subdivide (octree.js), parameterised by the recursive insert:
    create the 8 children, mark the node internal, empty its bucket and move
    every bucketed body into the first child containing it. -/
def BNode.subdivideGo (ins : BNode → Body → Option BNode) (n : BNode) :
    Option BNode :=
  let cs0 := BNode.mkChildren n.center n.halfSize
  (n.bodies.foldl (fun acc b => acc.bind fun cs => BNode.insertIntoChild ins cs b)
      (some cs0)).map
    fun cs' => BNode.mk n.center n.halfSize n.mass n.com false [] cs'

def BNode.withChildren : BNode → List BNode → BNode
  | .mk c h m com l bs _, cs => .mk c h m com l bs cs

def BNode.pushBody : BNode → Body → BNode
  | .mk c h m com l bs cs, b => .mk c h m com l (bs ++ [b]) cs

/-- OctreeNode.insert (octree.js), with fuel bounding the recursion depth:
    non-leaf → `_insertIntoChild`; leaf → push into the bucket and subdivide
    when over `MAX_BODIES_PER_NODE`; in all cases `updateMassDistribution`
    runs afterwards, followed by the (dead) trailing subdivision check. -/
def BNode.insertF : ℕ → BNode → Body → Option BNode
  | 0, _, _ => none
  | fuel+1, n, b =>
    (if n.isLeaf = false then
      (BNode.insertIntoChild (BNode.insertF fuel) n.children b).map n.withChildren
    else
      let n1 := n.pushBody b
      if n1.bodies.length > MAX_BODIES_PER_NODE then
        BNode.subdivideGo (BNode.insertF fuel) n1
      else some n1).bind fun n2 =>
      let n3 := n2.updateMassDistribution b
      if n3.isLeaf = true ∧ n3.bodies.length > MAX_BODIES_PER_NODE then
        BNode.subdivideGo (BNode.insertF fuel) n3
      else some n3

/-- Folding one insert per body (the per-tick `bodies.forEach(insert)` of the
    rebuild cycle); each single insert gets the same fuel. -/
def BNode.insertAllF (fuel : ℕ) (n : BNode) : List Body → Option BNode
  | [] => some n
  | b :: rest => (BNode.insertF fuel n b).bind fun n' => BNode.insertAllF fuel n' rest

/-- The Octree wrapper of src/octree.js (gravityConstant + root; the pooling
    and frame-counter bookkeeping fields play no part in rebuild or force
    evaluation and are omitted). -/
structure Octree where
  gravityConstant : ℚ
  root : BNode

/-- `new Octree(worldSize, gravityConstant)`: root covers a cube of side
    `worldSize` centred at the origin. -/
def Octree.construct (worldSize gravityConstant : ℚ) : Octree :=
  ⟨gravityConstant, BNode.fresh Vec3.zero (worldSize / 2)⟩

/-- Octree.clear: replace the root by a fresh node with the same geometry. -/
def Octree.clear (o : Octree) : Octree :=
  ⟨o.gravityConstant, BNode.fresh o.root.center o.root.halfSize⟩

/-- Octree.insert delegates to the root. -/
def Octree.insertF (fuel : ℕ) (o : Octree) (b : Body) : Option Octree :=
  (BNode.insertF fuel o.root b).map fun r => ⟨o.gravityConstant, r⟩

/-- The per-tick rebuild cycle of sim.js: `octree.clear()` followed by one
    `octree.insert` per body. -/
def Octree.rebuildF (fuel : ℕ) (o : Octree) (bs : List Body) : Option Octree :=
  (BNode.insertAllF fuel (BNode.fresh o.root.center o.root.halfSize) bs).map
    fun r => ⟨o.gravityConstant, r⟩

/-- Sequencing a walk over a list of children, threading the force
    accumulator (`node.children.forEach(child => _calculateGravity(...))`). -/
def foldWalk (walk : BNode → Vec3 → Option Vec3) :
    List BNode → Vec3 → Option Vec3
  | [], f => some f
  | c :: rest, f => (walk c f).bind (foldWalk walk rest)

/-- The leaf case of Octree._calculateGravity: exact pairwise force from each
    bucketed body, skipping the target itself and pairs with squared distance
    not above 1e-10. -/
def BNode.leafGravity (G : ℚ) (bs : List Body) (b : Body) (force : Vec3) : Vec3 :=
  bs.foldl (fun f otherBody =>
    if otherBody = b then f
    else
      let direction := otherBody.position.vsub b.position
      let distanceSquared := direction.norm2
      if distanceSquared > 1e-10 then
        f.vadd ((direction.unitV).scale ((G * b.mass * otherBody.mass) / distanceSquared))
      else f) force

/-- Octree._calculateGravity (octree.js), fuelled; `G` is the Octree's
    gravityConstant and `force` the mutable accumulator.
    At an internal node the opening test is `(node.halfSize / distance) < theta`;
    in JS a zero `distance` makes the quotient Infinity (or NaN for a zero
    halfSize, and node half-sizes are nonnegative by construction), failing
    the test, which the embedding renders as the conjunct `0 < distance`. -/
def BNode.calcGravF : ℕ → ℚ → BNode → Body → ℚ → Vec3 → Option Vec3
  | 0, _, _, _, _, _ => none
  | fuel+1, G, n, b, theta, force =>
    if n.isLeaf = false then
      let directionToCOM := n.com.vsub b.position
      let distance := sqrtQ directionToCOM.norm2
      if 0 < distance ∧ n.halfSize / distance < theta then
        let strength := (G * b.mass * n.mass) / (distance * distance)
        some (force.vadd ((directionToCOM.scale (1 / distance)).scale strength))
      else
        foldWalk (fun c f => BNode.calcGravF fuel G c b theta f) n.children force
    else
      some (BNode.leafGravity G n.bodies b force)

/-- Octree.calculateGravity: walk from the root with a zero accumulator
    (theta defaults to 0.5 at the call sites in sim.js). -/
def Octree.calculateGravity (fuel : ℕ) (o : Octree) (b : Body) (theta : ℚ) :
    Option Vec3 :=
  BNode.calcGravF fuel o.gravityConstant o.root b theta Vec3.zero

/-! ## The strict single-occupant octree of src/OctreeNode.js -/

/-- The exported OctreeNode class of src/OctreeNode.js: vector `halfDimension`,
    a fixed array of 8 nullable children, and at most one occupant `body`. -/
inductive ONode : Type where
  | mk (center : Vec3) (halfDimension : Vec3) (children : List (Option ONode))
       (body : Option Body) (mass : ℚ) (centerOfMass : Vec3) : ONode

def ONode.center : ONode → Vec3 | .mk c _ _ _ _ _ => c
def ONode.halfDimension : ONode → Vec3 | .mk _ h _ _ _ _ => h
def ONode.children : ONode → List (Option ONode) | .mk _ _ cs _ _ _ => cs
def ONode.body : ONode → Option Body | .mk _ _ _ b _ _ => b
def ONode.mass : ONode → ℚ | .mk _ _ _ _ m _ => m
def ONode.centerOfMass : ONode → Vec3 | .mk _ _ _ _ _ v => v

/-- `new OctreeNode(center, halfDimension)`: 8 null children, no body. -/
def ONode.fresh (center halfDimension : Vec3) : ONode :=
  .mk center halfDimension (List.replicate 8 none) none 0 Vec3.zero

/-- OctreeNode.clear: reset mass, centerOfMass and body and null out all
    children (the recursive clearing of discarded children is unobservable). -/
def ONode.clear : ONode → ONode
  | .mk c h _ _ _ _ => .mk c h (List.replicate 8 none) none 0 Vec3.zero

/-- OctreeNode.isLeaf: every child slot is null. -/
def ONode.isLeaf (n : ONode) : Bool := n.children.all fun c => c.isNone

/-- OctreeNode.getOctantIndex: three independent `>=` comparisons packed into
    bits 4 (x), 2 (y) and 1 (z). -/
def ONode.getOctantIndex (center position : Vec3) : ℕ :=
  (if position.x ≥ center.x then 4 else 0) +
  (if position.y ≥ center.y then 2 else 0) +
  (if position.z ≥ center.z then 1 else 0)

/-- Child centre used by OctreeNode.subdivide: `center + newHalf * (±0.5)`
    per axis with `newHalf = halfDimension.scale(0.5)`, i.e. an offset of a
    QUARTER of the parent half-extent. -/
def ONode.subdivideChildCenter (c newHalf : Vec3) (i : ℕ) : Vec3 :=
  ⟨c.x + newHalf.x * (if i &&& 4 ≠ 0 then 1/2 else -(1/2)),
   c.y + newHalf.y * (if i &&& 2 ≠ 0 then 1/2 else -(1/2)),
   c.z + newHalf.z * (if i &&& 1 ≠ 0 then 1/2 else -(1/2))⟩

/-- OctreeNode.subdivide: fill all 8 child slots with fresh nodes of half the
    parent's extent at `subdivideChildCenter` offsets. -/
def ONode.subdivide : ONode → ONode
  | .mk c h _cs b m com =>
    let newHalf := h.scale (1/2)
    .mk c h
      ((List.range 8).map fun i => some (ONode.fresh (ONode.subdivideChildCenter c newHalf i) newHalf))
      b m com
  -- `cs` is overwritten slot by slot; the result is the full fresh array.

/-- Child centre used by the missing-child branch of OctreeNode.insert
    (lines 76-80): `center + halfDimension * (±0.5)` per axis — an offset of
    HALF the parent half-extent, unlike `subdivideChildCenter`. -/
def ONode.missingChildCenter (c halfDimension : Vec3) (i : ℕ) : Vec3 :=
  ⟨c.x + halfDimension.x * (if i &&& 4 ≠ 0 then 1/2 else -(1/2)),
   c.y + halfDimension.y * (if i &&& 2 ≠ 0 then 1/2 else -(1/2)),
   c.z + halfDimension.z * (if i &&& 1 ≠ 0 then 1/2 else -(1/2))⟩

/-- OctreeNode.updateMassAndCenterOfMass. -/
def ONode.updateMassAndCenterOfMass : ONode → Body → ONode
  | .mk c h cs bd m com, b =>
    let totalMass := m + b.mass
    .mk c h cs bd totalMass
      (((com.scale m).vadd (b.position.scale b.mass)).scale (1 / totalMass))

def ONode.setChild : ONode → ℕ → ONode → ONode
  | .mk c h cs bd m com, i, child => .mk c h (cs.set i (some child)) bd m com

def ONode.setBody : ONode → Option Body → ONode
  | .mk c h cs _ m com, b => .mk c h cs b m com

/-- OctreeNode.insert, fuelled.  An empty leaf stores the body directly; an
    occupied leaf subdivides and reinserts its occupant first; then the body
    descends into its octant (creating the child at `missingChildCenter` if
    the slot is null) and the node's aggregates are updated.  The `none`
    child obtained right after a subdivide cannot happen; it is mapped to
    fuel-exhaustion-style failure. -/
def ONode.insertF : ℕ → ONode → Body → Option ONode
  | 0, _, _ => none
  | fuel+1, n, b =>
    if n.body = none ∧ n.isLeaf = true then
      some (ONode.mk n.center n.halfDimension n.children (some b) b.mass b.position)
    else
      (if n.isLeaf = true then
        -- occupied leaf: `this.body` is non-null here; subdivide and reinsert it
        n.body.bind fun a =>
          let n1 := n.subdivide
          let ia := ONode.getOctantIndex n1.center a.position
          (n1.children.getD ia none).bind fun ca =>
            (ONode.insertF fuel ca a).map fun ca' =>
              (n1.setChild ia ca').setBody none
      else some n).bind fun n2 =>
        let octantIndex := ONode.getOctantIndex n2.center b.position
        let child := (n2.children.getD octantIndex none).getD
          (ONode.fresh
            (ONode.missingChildCenter n2.center n2.halfDimension octantIndex)
            (n2.halfDimension.scale (1/2)))
        (ONode.insertF fuel child b).map fun c' =>
          (n2.setChild octantIndex c').updateMassAndCenterOfMass b

/-- Sequencing the force walk over the 8 nullable children
    (`for (let child of this.children) child?.calculateForcesOnBody(...)`). -/
def foldWalkO (walk : ONode → Vec3 → Option Vec3) :
    List (Option ONode) → Vec3 → Option Vec3
  | [], f => some f
  | none :: rest, f => foldWalkO walk rest f
  | some c :: rest, f => (walk c f).bind (foldWalkO walk rest)

/-- OctreeNode.calculateForcesOnBody, fuelled.
    The source's opening test is
    `this.size * this.size / distanceSquared < theta * theta || this.isLeaf()`;
    `OctreeNode` has no `size` field, so in JS the left disjunct is
    `NaN < theta * theta`, which is false whatever theta is: the test reduces
    to `isLeaf()`, and the embedding renders it so.  `Vec3.normalize` is
    modelled as producing the normalised vector (its argument is nonzero in
    the reachable branch because `distanceSquared == 0` returned earlier). -/
def ONode.calculateForcesOnBody : ℕ → ONode → Body → ℚ → Vec3 → ℚ → Option Vec3
  | 0, _, _, _, _, _ => none
  | fuel+1, n, b, theta, force, G =>
    if n.mass = 0 ∨ n.body = some b then some force
    else
      let distanceSquared := n.centerOfMass.distanceSquared b.position
      if distanceSquared = 0 then some force
      else if n.isLeaf = true then
        let magnitude := G * n.mass * b.mass / distanceSquared
        some (force.vadd (((n.centerOfMass.vsub b.position).unitV).scale magnitude))
      else
        foldWalkO (fun c f => ONode.calculateForcesOnBody fuel c b theta f G)
          n.children force

/-! ## Specification-side definitions (from the spec's words, for comparison) -/

/-- Sum of the masses of a list of bodies. -/
def massSum (bs : List Body) : ℚ := (bs.map Body.mass).sum

/-- The spec's single point-mass term: force of magnitude
    `gravityConstant * node.mass * targetBody.mass / distance²` directed from
    the body toward the node's centre of mass (claim C1's formula). -/
def specPointMassForce (G nodeMass : ℚ) (nodeCom : Vec3) (b : Body) : Vec3 :=
  ((nodeCom.vsub b.position).unitV).scale
    (G * nodeMass * b.mass / (nodeCom.distanceSquared b.position))

/-- Membership of a point in the axis-aligned box with the given centre and
    (vector) half-extent — the spec's notion of a node's region. -/
def inRegion (center halfExtent p : Vec3) : Prop :=
  center.x - halfExtent.x ≤ p.x ∧ p.x ≤ center.x + halfExtent.x ∧
  center.y - halfExtent.y ≤ p.y ∧ p.y ≤ center.y + halfExtent.y ∧
  center.z - halfExtent.z ≤ p.z ∧ p.z ≤ center.z + halfExtent.z

instance (c h p : Vec3) : Decidable (inRegion c h p) := by
  unfold inRegion; infer_instance

/-- Geometry fingerprint of a child list: centre and half-size of each child
    (insertion updates masses and buckets but never these fields). -/
def childGeoms (cs : List BNode) : List (Vec3 × ℚ) :=
  cs.map fun c => (c.center, c.halfSize)

/-- The spec's mass-aggregate invariant, stated node-locally and recursively:
    every node's mass is the mass of its own bucket plus the masses of its
    children — equivalently, the total mass of all bodies in its subtree. -/
inductive BNode.MassCorrect : BNode → Prop where
  | mk : ∀ n : BNode,
      n.mass = massSum n.bodies + (n.children.map BNode.mass).sum →
      (∀ c ∈ n.children, BNode.MassCorrect c) →
      BNode.MassCorrect n

/-- Invariant of trees produced by the rebuild cycle: a leaf has no children,
    an internal node has an empty bucket and the 8 standard children of
    `subdivide` (up to updated mass/bucket fields), every bucketed body lies
    in its leaf's region, and masses aggregate correctly — recursively. -/
inductive BNode.Inv : BNode → Prop where
  | mk : ∀ n : BNode,
      (n.isLeaf = true → n.children = []) →
      (n.isLeaf = false →
        n.bodies = [] ∧
        childGeoms n.children = childGeoms (BNode.mkChildren n.center n.halfSize)) →
      (∀ b ∈ n.bodies, n.contains b.position) →
      n.mass = massSum n.bodies + (n.children.map BNode.mass).sum →
      (∀ c ∈ n.children, BNode.Inv c) →
      BNode.Inv n

/-- Termination of OctreeNode.insert on a given node and body: some recursion
    bound suffices. -/
def ONode.insertTerminates (n : ONode) (b : Body) : Prop :=
  ∃ fuel n', ONode.insertF fuel n b = some n'

/-! ## Concrete inputs used by counterexamples and witnesses -/

/-- Body of mass 1 at (1,0,0). -/
def bAt1 : Body := ⟨0, ⟨1, 0, 0⟩, 1⟩

/-- Body of mass 1 at (3,0,0). -/
def bAt3 : Body := ⟨1, ⟨3, 0, 0⟩, 1⟩

/-- Target body of mass 1 at the origin (distinct identity). -/
def bTarget : Body := ⟨2, Vec3.zero, 1⟩

/-- Bucketed tree holding `bAt1` and `bAt3`: a single leaf with two occupants
    (bucket capacity 10 is not exceeded), built by the rebuild cycle. -/
def twoBodyLeaf : BNode :=
  (BNode.insertAllF 3 (BNode.fresh Vec3.zero 50) [bAt1, bAt3]).getD
    (BNode.fresh Vec3.zero 50)

/-- One-leaf bucketed tree (gravityConstant 1) holding a single body of mass
    `M` at (1,0,0): the force it exerts on `bTarget` grows linearly in `M`. -/
def leafTreeWithMass (M : ℚ) : Octree :=
  ⟨1, (BNode.insertF 1 (BNode.fresh Vec3.zero 50) ⟨0, ⟨1, 0, 0⟩, M⟩).getD
    (BNode.fresh Vec3.zero 50)⟩

/-- Body of mass 1 at distance 1e-6 from the origin. -/
def bNear : Body := ⟨0, ⟨1/1000000, 0, 0⟩, 1⟩

/-- Strict-octree leaf holding only `bNear`. -/
def nearLeaf : ONode :=
  (ONode.insertF 1 (ONode.fresh Vec3.zero ⟨50, 50, 50⟩) bNear).getD
    (ONode.fresh Vec3.zero ⟨50, 50, 50⟩)

/-- Two distinct bodies at the identical position (the origin). -/
def coincidentA : Body := ⟨0, Vec3.zero, 1⟩

/-- Second body coincident with `coincidentA`. -/
def coincidentB : Body := ⟨1, Vec3.zero, 1⟩

/-- Strict-octree leaf occupied by `coincidentA`. -/
def coincidentLeaf : ONode :=
  (ONode.insertF 1 (ONode.fresh Vec3.zero ⟨50, 50, 50⟩) coincidentA).getD
    (ONode.fresh Vec3.zero ⟨50, 50, 50⟩)

/-- Demonstration node for OctreeNode.subdivide: centred at the origin with
    half-extent (1,1,1). -/
def demoNode : ONode := ONode.fresh Vec3.zero ⟨1, 1, 1⟩

/-- A point inside `demoNode`'s region but outside every region produced by
    OctreeNode.subdivide. -/
def demoPoint : Vec3 := ⟨9/10, 9/10, 9/10⟩

/-- Body of negative mass at the origin (an InvalidBody in the spec's
    taxonomy). -/
def badBody : Body := ⟨0, Vec3.zero, -1⟩

/-- Target body of mass 1 at the origin, distinct from `bNear`. -/
def bOriginTarget : Body := ⟨1, Vec3.zero, 1⟩

/-! ## Helper lemmas -/

theorem sqrtQ_of_sq (a : ℚ) (h : 0 ≤ a) : sqrtQ (a * a) = a := by
  rw [sqrtQ, Rat.sqrt_eq, abs_of_nonneg h]

theorem sqrtQ_zero : sqrtQ 0 = 0 := by
  have := sqrtQ_of_sq 0 le_rfl; simpa using this

theorem sqrtQ_one : sqrtQ 1 = 1 := by
  have := sqrtQ_of_sq 1 (by norm_num); simpa using this

theorem sqrtQ_four : sqrtQ 4 = 2 := by
  have := sqrtQ_of_sq 2 (by norm_num); rw [show (4:ℚ) = 2 * 2 by norm_num]; exact this

theorem sqrtQ_nine : sqrtQ 9 = 3 := by
  have := sqrtQ_of_sq 3 (by norm_num); rw [show (9:ℚ) = 3 * 3 by norm_num]; exact this

theorem sqrtQ_em12 : sqrtQ (1 / 1000000000000) = 1 / 1000000 := by
  have := sqrtQ_of_sq (1 / 1000000) (by norm_num)
  rw [show (1 / 1000000000000 : ℚ) = (1 / 1000000) * (1 / 1000000) by norm_num]
  exact this

theorem BNode.updateMassDistribution_center (n : BNode) (b : Body) :
    (n.updateMassDistribution b).center = n.center := by
  cases n; rfl

theorem BNode.updateMassDistribution_halfSize (n : BNode) (b : Body) :
    (n.updateMassDistribution b).halfSize = n.halfSize := by
  cases n; rfl

theorem BNode.updateMassDistribution_isLeaf (n : BNode) (b : Body) :
    (n.updateMassDistribution b).isLeaf = n.isLeaf := by
  cases n; rfl

theorem BNode.updateMassDistribution_bodies (n : BNode) (b : Body) :
    (n.updateMassDistribution b).bodies = n.bodies := by
  cases n; rfl

theorem BNode.updateMassDistribution_children (n : BNode) (b : Body) :
    (n.updateMassDistribution b).children = n.children := by
  cases n; rfl

theorem BNode.updateMassDistribution_mass (n : BNode) (b : Body) :
    (n.updateMassDistribution b).mass = n.mass + b.mass := by
  cases n; rfl

theorem BNode.pushBody_fields (n : BNode) (b : Body) :
    (n.pushBody b).center = n.center ∧ (n.pushBody b).halfSize = n.halfSize ∧
    (n.pushBody b).mass = n.mass ∧ (n.pushBody b).isLeaf = n.isLeaf ∧
    (n.pushBody b).bodies = n.bodies ++ [b] ∧ (n.pushBody b).children = n.children := by
  cases n; exact ⟨rfl, rfl, rfl, rfl, rfl, rfl⟩

theorem BNode.withChildren_fields (n : BNode) (cs : List BNode) :
    (n.withChildren cs).center = n.center ∧ (n.withChildren cs).halfSize = n.halfSize ∧
    (n.withChildren cs).mass = n.mass ∧ (n.withChildren cs).isLeaf = n.isLeaf ∧
    (n.withChildren cs).bodies = n.bodies ∧ (n.withChildren cs).children = cs := by
  cases n; exact ⟨rfl, rfl, rfl, rfl, rfl, rfl⟩

/-- `_insertIntoChild` leaves the children untouched when no child region
    contains the body's position (the body is dropped). -/
theorem BNode.insertIntoChild_of_none (ins : BNode → Body → Option BNode) (b : Body) :
    ∀ cs : List BNode, (∀ c ∈ cs, ¬ c.contains b.position) →
      BNode.insertIntoChild ins cs b = some cs := by
  intro cs
  induction cs with
  | nil => intro _; rfl
  | cons c rest ih =>
    intro h
    rw [BNode.insertIntoChild, if_neg (h c (by simp))]
    rw [ih fun x hx => h x (by simp [hx])]
    rfl

theorem BNode.withChildren_self (n : BNode) : n.withChildren n.children = n := by
  cases n; rfl

/-! ## Claim theorems -/

/-- Claim C10 (confirmed): inserting a body into an internal node of the
    bucketed octree when no child region contains its position returns
    without error, stores the body nowhere (bucket and children are
    unchanged, so no leaf of the subtree gains it), and still adds the
    body's mass to the node's aggregate mass and centre of mass. -/
theorem claimC10 (fuel : ℕ) (n : BNode) (b : Body)
    (hinternal : n.isLeaf = false)
    (hnone : ∀ c ∈ n.children, ¬ c.contains b.position) :
    BNode.insertF (fuel+1) n b = some (n.updateMassDistribution b) ∧
    (n.updateMassDistribution b).children = n.children ∧
    (n.updateMassDistribution b).bodies = n.bodies ∧
    (n.updateMassDistribution b).mass = n.mass + b.mass := by
  refine ⟨?_, BNode.updateMassDistribution_children n b,
    BNode.updateMassDistribution_bodies n b, BNode.updateMassDistribution_mass n b⟩
  rw [BNode.insertF, if_pos hinternal, BNode.insertIntoChild_of_none _ _ _ hnone]
  simp only [Option.map_some', BNode.withChildren_self, Option.some_bind]
  rw [if_neg]
  intro hcontra
  rw [BNode.updateMassDistribution_isLeaf, hinternal] at hcontra
  exact absurd hcontra.1 (by simp)

/-- Claim C10 witness: a subdivided root (children cover [-50,50]³) receiving
    a body at (60,0,0), outside every child region. -/
theorem claimC10_witness :
    BNode.insertF 1
      (BNode.mk Vec3.zero 50 0 Vec3.zero false []
        (BNode.mkChildren Vec3.zero 50)) ⟨7, ⟨60, 0, 0⟩, 5⟩ =
      some ((BNode.mk Vec3.zero 50 0 Vec3.zero false []
        (BNode.mkChildren Vec3.zero 50)).updateMassDistribution ⟨7, ⟨60, 0, 0⟩, 5⟩) := by
  have hc : ∀ c ∈ (BNode.mk Vec3.zero 50 0 Vec3.zero false []
      (BNode.mkChildren Vec3.zero 50)).children,
      ¬ c.contains (Body.position ⟨7, ⟨60, 0, 0⟩, 5⟩) := by
    intro c hc
    simp only [BNode.children, BNode.mkChildren, Vec3.zero] at hc
    fin_cases hc <;>
      norm_num [BNode.contains, boxContains, BNode.fresh, BNode.center, BNode.halfSize]
  exact (claimC10 0 (BNode.mk Vec3.zero 50 0 Vec3.zero false []
    (BNode.mkChildren Vec3.zero 50)) ⟨7, ⟨60, 0, 0⟩, 5⟩ rfl hc).1

/-- Claim C5 (corrected): no validation happens on insertion.  A body of
    mass -1 is accepted by the bucketed octree's insert and drives the fresh
    root's aggregate mass (previously 0) to -1, so invalid bodies do affect
    the aggregates rather than being rejected. -/
theorem claimC5_counterexample :
    (BNode.insertF 1 (BNode.fresh Vec3.zero 50) badBody).map BNode.mass = some (-1) ∧
    (BNode.fresh Vec3.zero 50).mass = 0 := by
  constructor
  · norm_num [BNode.insertF, BNode.fresh, BNode.isLeaf, BNode.pushBody, BNode.bodies,
      BNode.mass, BNode.updateMassDistribution, MAX_BODIES_PER_NODE, badBody, Vec3.zero]
  · rfl

/-- Claim C5 (amended): both inserts accept every body unconditionally — any
    body, whatever the sign of its mass, is stored and its mass incorporated
    into the aggregates; nothing is rejected and no failure is signalled. -/
theorem claimC5_amended (center halfDim : Vec3) (halfSize : ℚ) (b : Body) :
    (∃ t, BNode.insertF 1 (BNode.fresh center halfSize) b = some t ∧
      t.bodies = [b] ∧ t.mass = b.mass ∧ t.isLeaf = true) ∧
    (∃ t, ONode.insertF 1 (ONode.fresh center halfDim) b = some t ∧
      t.body = some b ∧ t.mass = b.mass) := by
  constructor
  · refine ⟨_, rfl, ?_, ?_, ?_⟩ <;>
      simp [BNode.insertF, BNode.fresh, BNode.isLeaf, BNode.pushBody, BNode.bodies,
        BNode.mass, BNode.updateMassDistribution, MAX_BODIES_PER_NODE]
  · exact ⟨_, rfl, rfl, rfl⟩

/-- Force of the one-leaf tree `leafTreeWithMass M` on `bTarget`: exactly
    (M, 0, 0) — linear in the source mass, with no ceiling applied. -/
theorem leafTreeWithMass_gravity (M : ℚ) :
    Octree.calculateGravity 1 (leafTreeWithMass M) bTarget (1/2) = some ⟨M, 0, 0⟩ := by
  norm_num [Octree.calculateGravity, leafTreeWithMass, BNode.insertF, BNode.fresh,
    BNode.isLeaf, BNode.pushBody, BNode.bodies, BNode.updateMassDistribution,
    MAX_BODIES_PER_NODE, BNode.calcGravF, BNode.leafGravity, bTarget, Vec3.zero,
    Vec3.vadd, Vec3.vsub, Vec3.scale, Vec3.norm2, Vec3.unitV, sqrtQ_one, Body.mk.injEq]

/-- Claim C4 (corrected): no configured ceiling bounds the returned force.
    Over the family `leafTreeWithMass M` the x-component of the force on
    `bTarget` equals M, so no single constant can dominate it. -/
theorem claimC4_counterexample :
    ¬ ∃ C : ℚ, ∀ M : ℚ,
      ((Octree.calculateGravity 1 (leafTreeWithMass M) bTarget (1/2)).getD Vec3.zero).x ≤ C := by
  rintro ⟨C, hC⟩
  have h := hC (C + 1)
  rw [leafTreeWithMass_gravity] at h
  simp only [Option.getD_some] at h
  have : ¬ ((⟨C + 1, 0, 0⟩ : Vec3).x ≤ C) := by simp
  exact this h

/-- Claim C4 (amended): the gravity walk applies no clamp — for every bound
    C there is an input whose returned force exceeds it (the magnitude grows
    linearly with the aggregate mass). -/
theorem claimC4_amended (C : ℚ) :
    ∃ M : ℚ, C <
      ((Octree.calculateGravity 1 (leafTreeWithMass M) bTarget (1/2)).getD Vec3.zero).x := by
  refine ⟨C + 1, ?_⟩
  rw [leafTreeWithMass_gravity]
  simp

theorem Vec3.distanceSquared_self (a : Vec3) : a.distanceSquared a = 0 := by
  simp [Vec3.distanceSquared, Vec3.vsub, Vec3.norm2]

/-- The leaf loop of `_calculateGravity` leaves the accumulator unchanged
    when every occupant is the target itself or within the 1e-10 squared
    distance guard. -/
theorem BNode.leafGravity_of_near (G : ℚ) (b : Body) :
    ∀ (bs : List Body) (force : Vec3),
      (∀ ob ∈ bs, ob = b ∨ (ob.position.vsub b.position).norm2 ≤ 1e-10) →
      BNode.leafGravity G bs b force = force := by
  intro bs
  induction bs with
  | nil => intro force _; rfl
  | cons ob rest ih =>
    intro force h
    rw [BNode.leafGravity, List.foldl_cons]
    have htail : ∀ x ∈ rest, x = b ∨ (x.position.vsub b.position).norm2 ≤ 1e-10 :=
      fun x hx => h x (by simp [hx])
    by_cases hb : ob = b
    · rw [if_pos hb]
      exact ih force htail
    · rcases h ob (by simp) with hb' | hnear
      · exact absurd hb' hb
      · rw [if_neg hb, if_neg (not_lt.mpr hnear)]
        exact ih force htail

/-- Claim C6 (confirmed): zero self-force.  (i) A strict-octree node of zero
    mass contributes nothing; (ii) the strict octree exerts zero force on a
    body evaluated against a tree containing only that body; (iii) so does
    the bucketed octree; (iv) a bucketed leaf whose sole occupant is the
    target contributes nothing. -/
theorem claimC6 :
    (∀ (fuel : ℕ) (n : ONode) (b : Body) (theta G : ℚ) (force : Vec3), n.mass = 0 →
      ONode.calculateForcesOnBody (fuel+1) n b theta force G = some force) ∧
    (∀ (fuel : ℕ) (c h : Vec3) (b : Body) (theta G : ℚ) (t : ONode),
      ONode.insertF 1 (ONode.fresh c h) b = some t →
      ONode.calculateForcesOnBody (fuel+1) t b theta Vec3.zero G = some Vec3.zero) ∧
    (∀ (fuel : ℕ) (c : Vec3) (hs : ℚ) (b : Body) (theta G : ℚ) (t : BNode),
      BNode.insertF 1 (BNode.fresh c hs) b = some t →
      BNode.calcGravF (fuel+1) G t b theta Vec3.zero = some Vec3.zero) ∧
    (∀ (fuel : ℕ) (G : ℚ) (n : BNode) (b : Body) (theta : ℚ) (force : Vec3),
      n.isLeaf = true → n.bodies = [b] →
      BNode.calcGravF (fuel+1) G n b theta force = some force) := by
  refine ⟨?_, ?_, ?_, ?_⟩
  · intro fuel n b theta G force h
    rw [ONode.calculateForcesOnBody, if_pos (Or.inl h)]
  · intro fuel c h b theta G t heq
    have hre : ONode.insertF 1 (ONode.fresh c h) b =
        some (ONode.mk c h (List.replicate 8 none) (some b) b.mass b.position) := rfl
    rw [hre] at heq
    injection heq with heq'
    subst heq'
    simp [ONode.calculateForcesOnBody, ONode.mass, ONode.body]
  · intro fuel c hs b theta G t heq
    have hre : BNode.insertF 1 (BNode.fresh c hs) b =
        some (BNode.mk c hs (0 + b.mass)
          ⟨(0 * 0 + b.position.x * b.mass) / (0 + b.mass),
           (0 * 0 + b.position.y * b.mass) / (0 + b.mass),
           (0 * 0 + b.position.z * b.mass) / (0 + b.mass)⟩ true [b] []) := rfl
    rw [hre] at heq
    injection heq with heq'
    subst heq'
    simp [BNode.calcGravF, BNode.isLeaf, BNode.bodies, BNode.leafGravity]
  · intro fuel G n b theta force h1 h2
    simp [BNode.calcGravF, h1, h2, BNode.leafGravity]

/-- Claim C6 witness: concrete single-body tree exerting zero force on its
    only occupant. -/
theorem claimC6_witness :
    ONode.calculateForcesOnBody 1
      (ONode.mk Vec3.zero ⟨50, 50, 50⟩ (List.replicate 8 none) (some coincidentA) 1 Vec3.zero)
      coincidentA (1/2) Vec3.zero 1 = some Vec3.zero :=
  claimC6.2.1 0 Vec3.zero ⟨50, 50, 50⟩ coincidentA (1/2) 1 _ (by rfl)

/-- Claim C7 (amended): the force walks are total and never divide by zero,
    and at exactly zero distance a pairing contributes nothing: (i) in
    OctreeNode.js a node whose centre of mass coincides with the target's
    position is skipped; (ii) in octree.js a leaf contributes nothing when
    every occupant is the target or lies within squared distance 1e-10 of
    it; (iii) an internal node whose centre of mass coincides with the
    target's position recurses into its children instead of dividing. -/
theorem claimC7_amended :
    (∀ (fuel : ℕ) (n : ONode) (b : Body) (theta G : ℚ) (force : Vec3),
      n.centerOfMass = b.position →
      ONode.calculateForcesOnBody (fuel+1) n b theta force G = some force) ∧
    (∀ (fuel : ℕ) (G : ℚ) (n : BNode) (b : Body) (theta : ℚ) (force : Vec3),
      n.isLeaf = true →
      (∀ ob ∈ n.bodies, ob = b ∨ (ob.position.vsub b.position).norm2 ≤ 1e-10) →
      BNode.calcGravF (fuel+1) G n b theta force = some force) ∧
    (∀ (fuel : ℕ) (G : ℚ) (n : BNode) (b : Body) (theta : ℚ) (force : Vec3),
      n.isLeaf = false → n.com = b.position →
      BNode.calcGravF (fuel+1) G n b theta force =
        foldWalk (fun c f => BNode.calcGravF fuel G c b theta f) n.children force) := by
  refine ⟨?_, ?_, ?_⟩
  · intro fuel n b theta G force h
    by_cases h0 : n.mass = 0 ∨ n.body = some b
    · rw [ONode.calculateForcesOnBody, if_pos h0]
    · rw [ONode.calculateForcesOnBody, if_neg h0]
      simp only [h, Vec3.distanceSquared_self]
      simp
  · intro fuel G n b theta force h1 h2
    rw [BNode.calcGravF, if_neg (by simp [h1])]
    rw [BNode.leafGravity_of_near G b n.bodies force h2]
  · intro fuel G n b theta force h1 h2
    rw [BNode.calcGravF, if_pos h1]
    simp only [h2]
    rw [if_neg]
    intro hcontra
    have : Vec3.norm2 (b.position.vsub b.position) = 0 := by
      simp [Vec3.vsub, Vec3.norm2]
    rw [this, sqrtQ_zero] at hcontra
    exact absurd hcontra.1 (by norm_num)

/-- Claim C7 witness: a node of zero-mass aggregate at the target's exact
    position contributes zero. -/
theorem claimC7_witness :
    ONode.calculateForcesOnBody 1
      (ONode.mk Vec3.zero ⟨50, 50, 50⟩ (List.replicate 8 none) (some coincidentA) 1 ⟨0, 0, 0⟩)
      bOriginTarget (1/2) ⟨3, 4, 5⟩ 1 = some ⟨3, 4, 5⟩ :=
  claimC7_amended.1 0 _ bOriginTarget (1/2) 1 ⟨3, 4, 5⟩ (by rfl)

/-- Claim C7 (counterexample to the near-zero part): in OctreeNode.js only an
    exactly-zero distance is guarded.  A body at distance 1e-6 — within the
    sibling implementation's own 1e-10 squared-distance "near-zero" guard —
    yields a huge nonzero force, not the zero contribution the claim
    requires. -/
theorem claimC7_counterexample :
    (bNear.position.vsub bOriginTarget.position).norm2 ≤ 1e-10 ∧
    bNear.position ≠ bOriginTarget.position ∧
    ONode.calculateForcesOnBody 1 nearLeaf bOriginTarget (1/2) Vec3.zero 1 =
      some ⟨1000000000000, 0, 0⟩ ∧
    (⟨1000000000000, 0, 0⟩ : Vec3) ≠ Vec3.zero := by
  refine ⟨by norm_num [bNear, bOriginTarget, Vec3.vsub, Vec3.norm2, Vec3.zero], ?_, ?_, ?_⟩
  · norm_num [bNear, bOriginTarget, Vec3.zero, Vec3.mk.injEq]
  · norm_num [nearLeaf, ONode.insertF, ONode.fresh, ONode.isLeaf,
      ONode.calculateForcesOnBody, ONode.mass, ONode.body, ONode.centerOfMass,
      ONode.children, bNear, bOriginTarget, Vec3.zero, Vec3.distanceSquared,
      Vec3.vsub, Vec3.norm2, Vec3.unitV, Vec3.scale, Vec3.vadd, sqrtQ_em12,
      Body.mk.injEq]
  · norm_num [Vec3.zero, Vec3.mk.injEq]

theorem ONode.subdivide_children (n : ONode) :
    n.subdivide.children = (List.range 8).map fun i =>
      some (ONode.fresh (ONode.subdivideChildCenter n.center (n.halfDimension.scale (1/2)) i)
        (n.halfDimension.scale (1/2))) := by
  cases n; rfl

theorem ONode.subdivide_center (n : ONode) : n.subdivide.center = n.center := by
  cases n; rfl

theorem ONode.subdivide_body (n : ONode) : n.subdivide.body = n.body := by
  cases n; rfl

theorem ONode.setChild_center (n : ONode) (i : ℕ) (c : ONode) :
    (n.setChild i c).center = n.center := by
  cases n; rfl

theorem ONode.setChild_children (n : ONode) (i : ℕ) (c : ONode) :
    (n.setChild i c).children = n.children.set i (some c) := by
  cases n; rfl

theorem ONode.setBody_center (n : ONode) (b : Option Body) :
    (n.setBody b).center = n.center := by
  cases n; rfl

theorem ONode.setBody_children (n : ONode) (b : Option Body) :
    (n.setBody b).children = n.children := by
  cases n; rfl

theorem ONode.getOctantIndex_lt (c p : Vec3) : ONode.getOctantIndex c p < 8 := by
  unfold ONode.getOctantIndex
  split <;> split <;> split <;> norm_num

theorem getD_map_range {α : Type} (m : ℕ) (f : ℕ → α) (i : ℕ) (d : α) (h : i < m) :
    ((List.range m).map f).getD i d = f i := by
  rw [List.getD_eq_getElem?_getD, List.getElem?_map, List.getElem?_range h]
  rfl

theorem getD_set_self {α : Type} (l : List α) (i : ℕ) (x d : α) (h : i < l.length) :
    (l.set i x).getD i d = x := by
  rw [List.getD_eq_getElem?_getD, List.getElem?_set_eq_of_lt x h]
  rfl

/-- OctreeNode.insert never terminates on a leaf occupied by a body at the
    same position as the inserted body: whatever recursion bound is allowed,
    it is exhausted.  (Subdividing separates nothing: both bodies fall into
    the same octant child, which becomes an occupied leaf again.) -/
theorem ONode.insert_coincident_none (a b : Body) (hpos : a.position = b.position) :
    ∀ (fuel : ℕ) (n : ONode), n.isLeaf = true → n.body = some a →
      ONode.insertF fuel n b = none := by
  intro fuel
  induction fuel with
  | zero => intro n _ _; rfl
  | succ fuel ih =>
    intro n hleaf hbody
    rw [ONode.insertF, if_neg (by simp [hbody]), if_pos hleaf, hbody]
    have hlen : ((List.range 8).map fun i =>
        some (ONode.fresh (ONode.subdivideChildCenter n.center (n.halfDimension.scale (1/2)) i)
          (n.halfDimension.scale (1/2)))).length = 8 := by simp
    simp only [Option.some_bind]
    rw [ONode.subdivide_children n, getD_map_range 8 _ _ none
      (ONode.getOctantIndex_lt n.subdivide.center a.position)]
    simp only [Option.some_bind]
    cases fuel with
    | zero => rfl
    | succ g =>
      rw [show ∀ cc nh, ONode.insertF (g+1) (ONode.fresh cc nh) a =
          some (ONode.mk cc nh (List.replicate 8 none) (some a) a.mass a.position)
        from fun cc nh => rfl]
      simp only [Option.map_some', Option.some_bind]
      rw [ONode.setBody_center, ONode.setChild_center, ONode.subdivide_center]
      rw [show ONode.getOctantIndex n.center b.position =
        ONode.getOctantIndex n.center a.position by rw [hpos]]
      rw [ONode.setBody_children, ONode.setChild_children, ONode.subdivide_children n]
      rw [getD_set_self _ _ _ none (by rw [hlen]; exact ONode.getOctantIndex_lt n.center a.position)]
      simp only [Option.getD_some]
      rw [ih (ONode.mk
        (ONode.subdivideChildCenter n.center (n.halfDimension.scale (1/2))
          (ONode.getOctantIndex n.center a.position))
        (n.halfDimension.scale (1/2)) (List.replicate 8 none) (some a) a.mass a.position)
        rfl rfl]
      rfl

/-- Claim C3 (counterexample): insertion does NOT terminate for two bodies at
    identical positions in the strict octree — there is no depth cap and no
    bucketing of coincident bodies in OctreeNode.js. -/
theorem claimC3_counterexample : ¬ ONode.insertTerminates coincidentLeaf coincidentB := by
  rintro ⟨fuel, n', h⟩
  have hleaf : coincidentLeaf = ONode.mk Vec3.zero ⟨50, 50, 50⟩ (List.replicate 8 none)
      (some coincidentA) 1 Vec3.zero := rfl
  have hnone := ONode.insert_coincident_none coincidentA coincidentB rfl fuel
    (ONode.mk Vec3.zero ⟨50, 50, 50⟩ (List.replicate 8 none) (some coincidentA) 1 Vec3.zero)
    rfl rfl
  rw [hleaf, hnone] at h
  exact Option.noConfusion h

/-- A leaf of the bucketed octree absorbs bodies without subdividing while
    its bucket stays within `MAX_BODIES_PER_NODE`. -/
theorem BNode.insertAll_smallBucket :
    ∀ (bs : List Body) (n : BNode), n.isLeaf = true → n.children = [] →
      n.bodies.length + bs.length ≤ MAX_BODIES_PER_NODE →
      ∃ t, BNode.insertAllF 1 n bs = some t ∧
        t.isLeaf = true ∧ t.bodies = n.bodies ++ bs := by
  intro bs
  induction bs with
  | nil => intro n h1 _ _; exact ⟨n, rfl, h1, by simp⟩
  | cons b rest ih =>
    intro n h1 h2 h3
    simp only [List.length_cons] at h3
    have hstep : BNode.insertF 1 n b = some ((n.pushBody b).updateMassDistribution b) := by
      rw [BNode.insertF, if_neg (by simp [h1])]
      rw [if_neg (by
        rw [(BNode.pushBody_fields n b).2.2.2.2.1]
        simp only [List.length_append, List.length_singleton]
        omega)]
      simp only [Option.some_bind]
      rw [if_neg (by
        rw [BNode.updateMassDistribution_bodies, (BNode.pushBody_fields n b).2.2.2.2.1]
        simp only [List.length_append, List.length_singleton]
        intro hc
        omega)]
    rw [BNode.insertAllF, hstep, Option.some_bind]
    have h1' : ((n.pushBody b).updateMassDistribution b).isLeaf = true := by
      rw [BNode.updateMassDistribution_isLeaf, (BNode.pushBody_fields n b).2.2.2.1, h1]
    have h2' : ((n.pushBody b).updateMassDistribution b).children = [] := by
      rw [BNode.updateMassDistribution_children, (BNode.pushBody_fields n b).2.2.2.2.2, h2]
    have hb' : ((n.pushBody b).updateMassDistribution b).bodies = n.bodies ++ [b] := by
      rw [BNode.updateMassDistribution_bodies, (BNode.pushBody_fields n b).2.2.2.2.1]
    obtain ⟨t, ht, htl, htb⟩ := ih ((n.pushBody b).updateMassDistribution b) h1' h2' (by
      rw [hb']
      simp only [List.length_append, List.length_singleton]
      omega)
    exact ⟨t, ht, htl, by rw [htb, hb', List.append_assoc]; rfl⟩

/-- Claim C3 (amended): there is no hard depth limit.  In the bucketed octree
    up to `MAX_BODIES_PER_NODE` bodies — coincident or not — are bucketed
    together in the root leaf and insertion terminates with fuel 1 per
    insert; the strict octree's insert, however, never terminates on two
    coincident bodies (see the counterexample). -/
theorem claimC3_amended (bs : List Body) (center : Vec3) (halfSize : ℚ)
    (h : bs.length ≤ MAX_BODIES_PER_NODE) :
    ∃ t, BNode.insertAllF 1 (BNode.fresh center halfSize) bs = some t ∧
      t.isLeaf = true ∧ t.bodies = bs := by
  obtain ⟨t, ht, htl, htb⟩ := BNode.insertAll_smallBucket bs (BNode.fresh center halfSize)
    rfl rfl (by rw [show (BNode.fresh center halfSize).bodies = [] from rfl]; simpa using h)
  refine ⟨t, ht, htl, ?_⟩
  rw [htb, show (BNode.fresh center halfSize).bodies = [] from rfl, List.nil_append]

/-- Claim C3 witness: ten coincident bodies bucket together in one leaf. -/
theorem claimC3_witness :
    ∃ t, BNode.insertAllF 1 (BNode.fresh Vec3.zero 50)
        ((List.range 10).map fun i => ⟨i, Vec3.zero, 1⟩) = some t ∧
      t.isLeaf = true ∧ t.bodies = (List.range 10).map fun i => ⟨i, Vec3.zero, 1⟩ :=
  claimC3_amended ((List.range 10).map fun i => ⟨i, Vec3.zero, 1⟩) Vec3.zero 50 (by simp [MAX_BODIES_PER_NODE])

/-- Claim C8 (code bug): OctreeNode.subdivide places its children at
    `center ± halfDimension/4` — an offset of half the HALVED half-extent —
    rather than at the octant offsets `center ± halfDimension/2` that the
    claim describes, that OctreeNode.insert's own missing-child branch uses,
    and that octree.js's subdivide uses.  The resulting child regions
    overlap and miss the parent's corners: `demoPoint` lies in the parent's
    region but in no child's region. -/
theorem claimC8_bug :
    ((demoNode.subdivide).children.getD 7 none).map ONode.center = some ⟨1/4, 1/4, 1/4⟩ ∧
    ONode.missingChildCenter demoNode.center demoNode.halfDimension 7 = ⟨1/2, 1/2, 1/2⟩ ∧
    (⟨1/4, 1/4, 1/4⟩ : Vec3) ≠ ⟨1/2, 1/2, 1/2⟩ ∧
    inRegion demoNode.center demoNode.halfDimension demoPoint ∧
    (∀ oc ∈ (demoNode.subdivide).children, ∀ c, oc = some c →
      ¬ inRegion c.center c.halfDimension demoPoint) := by
  refine ⟨?_, ?_, ?_, ?_, ?_⟩
  · rw [ONode.subdivide_children, getD_map_range 8 _ 7 none (by norm_num)]
    simp only [Option.map_some']
    rw [show (ONode.fresh (ONode.subdivideChildCenter demoNode.center
      (demoNode.halfDimension.scale (1/2)) 7) (demoNode.halfDimension.scale (1/2))).center =
        ONode.subdivideChildCenter demoNode.center (demoNode.halfDimension.scale (1/2)) 7 from rfl]
    rw [ONode.subdivideChildCenter, if_pos (show 7 &&& 4 ≠ 0 by decide),
      if_pos (show 7 &&& 2 ≠ 0 by decide), if_pos (show 7 &&& 1 ≠ 0 by decide)]
    norm_num [demoNode, ONode.fresh, ONode.center, ONode.halfDimension, Vec3.zero, Vec3.scale,
      Vec3.mk.injEq]
  · rw [ONode.missingChildCenter, if_pos (show 7 &&& 4 ≠ 0 by decide),
      if_pos (show 7 &&& 2 ≠ 0 by decide), if_pos (show 7 &&& 1 ≠ 0 by decide)]
    norm_num [demoNode, ONode.fresh, ONode.center, ONode.halfDimension, Vec3.zero, Vec3.mk.injEq]
  · norm_num [Vec3.mk.injEq]
  · norm_num [inRegion, demoNode, demoPoint, ONode.fresh, ONode.center, ONode.halfDimension,
      Vec3.zero]
  · intro oc hoc c hc
    rw [ONode.subdivide_children] at hoc
    simp only [List.mem_map, List.mem_range] at hoc
    obtain ⟨i, _, rfl⟩ := hoc
    injection hc with hc'
    subst hc'
    intro hreg
    have h2 := hreg.2.1
    rw [show (ONode.fresh (ONode.subdivideChildCenter demoNode.center
      (demoNode.halfDimension.scale (1/2)) i) (demoNode.halfDimension.scale (1/2))).center =
        ONode.subdivideChildCenter demoNode.center (demoNode.halfDimension.scale (1/2)) i from rfl,
      show (ONode.fresh (ONode.subdivideChildCenter demoNode.center
      (demoNode.halfDimension.scale (1/2)) i) (demoNode.halfDimension.scale (1/2))).halfDimension =
        demoNode.halfDimension.scale (1/2) from rfl,
      ONode.subdivideChildCenter] at h2
    simp only [demoNode, demoPoint, ONode.fresh, ONode.center, ONode.halfDimension,
      Vec3.zero, Vec3.scale] at h2
    split at h2 <;> norm_num at h2

/-- OctreeNode.subdivide happens inside insert before occupants are
    reinserted; the aggregates the subdivided node carries are preserved. -/
theorem BNode.subdivideGo_fields (ins : BNode → Body → Option BNode) (m m' : BNode)
    (h : BNode.subdivideGo ins m = some m') :
    m'.center = m.center ∧ m'.halfSize = m.halfSize ∧ m'.mass = m.mass ∧
    m'.com = m.com ∧ m'.isLeaf = false ∧ m'.bodies = [] := by
  rcases Option.map_eq_some'.mp h with ⟨cs, _, rfl⟩
  exact ⟨rfl, rfl, rfl, rfl, rfl, rfl⟩

/-- A single insert never changes the geometry (centre, half-size) of the
    node it is called on. -/
theorem BNode.insertF_geom (fuel : ℕ) (n n' : BNode) (b : Body)
    (h : BNode.insertF fuel n b = some n') :
    n'.center = n.center ∧ n'.halfSize = n.halfSize := by
  cases fuel with
  | zero => exact Option.noConfusion h
  | succ fuel =>
    rw [BNode.insertF] at h
    rcases Option.bind_eq_some.mp h with ⟨n2, hbr, htail⟩
    have hgeom2 : n2.center = n.center ∧ n2.halfSize = n.halfSize := by
      by_cases hl : n.isLeaf = false
      · rw [if_pos hl] at hbr
        rcases Option.map_eq_some'.mp hbr with ⟨cs, _, rfl⟩
        exact ⟨(BNode.withChildren_fields n cs).1, (BNode.withChildren_fields n cs).2.1⟩
      · rw [if_neg hl] at hbr
        by_cases hlen : (n.pushBody b).bodies.length > MAX_BODIES_PER_NODE
        · rw [if_pos hlen] at hbr
          have hf := BNode.subdivideGo_fields _ _ _ hbr
          rw [hf.1, hf.2.1, (BNode.pushBody_fields n b).1]
          exact ⟨rfl, (BNode.pushBody_fields n b).2.1⟩
        · rw [if_neg hlen] at hbr
          injection hbr with hbr'
          subst hbr'
          exact ⟨(BNode.pushBody_fields n b).1, (BNode.pushBody_fields n b).2.1⟩
    have hgeom3 : ((n2.updateMassDistribution b).center = n.center ∧
        (n2.updateMassDistribution b).halfSize = n.halfSize) := by
      rw [BNode.updateMassDistribution_center, BNode.updateMassDistribution_halfSize]
      exact hgeom2
    by_cases htr : ((n2.updateMassDistribution b).isLeaf = true ∧
        (n2.updateMassDistribution b).bodies.length > MAX_BODIES_PER_NODE)
    · rw [if_pos htr] at htail
      have hf := BNode.subdivideGo_fields _ _ _ htail
      rw [hf.1, hf.2.1]
      exact hgeom3
    · rw [if_neg htr] at htail
      injection htail with htail'
      subst htail'
      exact hgeom3

theorem BNode.insertAllF_geom :
    ∀ (bs : List Body) (fuel : ℕ) (n t : BNode),
      BNode.insertAllF fuel n bs = some t →
      t.center = n.center ∧ t.halfSize = n.halfSize := by
  intro bs
  induction bs with
  | nil =>
    intro fuel n t h
    injection h with h'
    subst h'
    exact ⟨rfl, rfl⟩
  | cons b rest ih =>
    intro fuel n t h
    rw [BNode.insertAllF] at h
    rcases Option.bind_eq_some.mp h with ⟨n1, h1, h2⟩
    have g1 := BNode.insertF_geom fuel n n1 b h1
    have g2 := ih fuel n1 t h2
    exact ⟨g2.1.trans g1.1, g2.2.trans g1.2⟩

/-- Claim C9 (confirmed): the rebuild cycle is idempotent — rebuilding again
    from the tree a rebuild produced yields exactly the same tree (hence the
    same root mass and centre of mass). -/
theorem claimC9 (fuel : ℕ) (o t1 : Octree) (bs : List Body)
    (h : Octree.rebuildF fuel o bs = some t1) :
    Octree.rebuildF fuel t1 bs = some t1 := by
  rw [Octree.rebuildF] at h
  rcases Option.map_eq_some'.mp h with ⟨r, hr, rfl⟩
  have hg := BNode.insertAllF_geom bs fuel _ r hr
  rw [Octree.rebuildF]
  have hroot : (Octree.mk o.gravityConstant r).root = r := rfl
  rw [hroot, hg.1, hg.2,
    show (BNode.fresh o.root.center o.root.halfSize).center = o.root.center from rfl,
    show (BNode.fresh o.root.center o.root.halfSize).halfSize = o.root.halfSize from rfl,
    hr]
  rfl

theorem twoBodyLeaf_eq :
    twoBodyLeaf = BNode.mk Vec3.zero 50 2 ⟨2, 0, 0⟩ true [bAt1, bAt3] [] := by
  norm_num [twoBodyLeaf, BNode.insertAllF, BNode.insertF, BNode.fresh, BNode.isLeaf,
    BNode.pushBody, BNode.bodies, BNode.updateMassDistribution, MAX_BODIES_PER_NODE,
    bAt1, bAt3, Vec3.zero, BNode.mk.injEq, Vec3.mk.injEq]

/-- Claim C1 (counterexample): a leaf of the bucketed octree holding two
    occupants does NOT contribute the single point-mass term of the claim:
    walking `twoBodyLeaf` (occupants of mass 1 at (1,0,0) and (3,0,0),
    aggregate mass 2 at centre of mass (2,0,0)) for a unit-mass target at
    the origin with G = 1 yields (10/9, 0, 0) — the sum of the two exact
    pairwise forces — while the claim's point-mass formula gives (1/2, 0, 0). -/
theorem claimC1_counterexample :
    twoBodyLeaf.isLeaf = true ∧
    BNode.calcGravF 1 1 twoBodyLeaf bTarget (1/2) Vec3.zero = some ⟨10/9, 0, 0⟩ ∧
    specPointMassForce 1 twoBodyLeaf.mass twoBodyLeaf.com bTarget = ⟨1/2, 0, 0⟩ ∧
    (⟨10/9, 0, 0⟩ : Vec3) ≠ ⟨1/2, 0, 0⟩ := by
  refine ⟨by rw [twoBodyLeaf_eq]; rfl, ?_, ?_, by norm_num [Vec3.mk.injEq]⟩
  · rw [twoBodyLeaf_eq]
    norm_num [BNode.calcGravF, BNode.isLeaf, BNode.bodies, BNode.leafGravity, bAt1, bAt3,
      bTarget, Vec3.zero, Vec3.vadd, Vec3.vsub, Vec3.scale, Vec3.norm2, Vec3.unitV,
      sqrtQ_one, sqrtQ_nine, Body.mk.injEq, Vec3.mk.injEq]
  · rw [twoBodyLeaf_eq]
    norm_num [specPointMassForce, BNode.mass, BNode.com, bTarget, Vec3.zero, Vec3.vsub,
      Vec3.scale, Vec3.norm2, Vec3.unitV, Vec3.distanceSquared, sqrtQ_four, Vec3.mk.injEq]

/-- Claim C1 (amended): what each walk actually computes, case by case.
    Bucketed octree: a leaf contributes the sum over its occupants of exact
    pairwise terms (with the self and 1e-10 guards); an internal node
    contributes the single point-mass term exactly when the distance to its
    centre of mass is positive and `halfSize / distance < theta`, and
    otherwise the sum of its children's contributions.  Strict octree
    (OctreeNode.js): because `this.size` is undefined, the opening test
    `NaN < theta²` never passes, so an unguarded internal node always
    recurses into its children — regardless of theta — and only a leaf
    contributes the point-mass term. -/
theorem claimC1_amended (fuel : ℕ) (G : ℚ) (n : BNode) (b : Body) (theta : ℚ) (force : Vec3) :
    (n.isLeaf = true →
      BNode.calcGravF (fuel+1) G n b theta force = some (BNode.leafGravity G n.bodies b force)) ∧
    (n.isLeaf = false →
      (0 < sqrtQ (n.com.vsub b.position).norm2 ∧
        n.halfSize / sqrtQ (n.com.vsub b.position).norm2 < theta) →
      BNode.calcGravF (fuel+1) G n b theta force =
        some (force.vadd (((n.com.vsub b.position).scale
          (1 / sqrtQ (n.com.vsub b.position).norm2)).scale
          ((G * b.mass * n.mass) /
            (sqrtQ (n.com.vsub b.position).norm2 * sqrtQ (n.com.vsub b.position).norm2))))) ∧
    (n.isLeaf = false →
      ¬ (0 < sqrtQ (n.com.vsub b.position).norm2 ∧
        n.halfSize / sqrtQ (n.com.vsub b.position).norm2 < theta) →
      BNode.calcGravF (fuel+1) G n b theta force =
        foldWalk (fun c f => BNode.calcGravF fuel G c b theta f) n.children force) ∧
    (∀ (n2 : ONode) (G2 : ℚ) (f2 : Vec3), n2.isLeaf = false →
      ¬ (n2.mass = 0 ∨ n2.body = some b) →
      n2.centerOfMass.distanceSquared b.position ≠ 0 →
      ONode.calculateForcesOnBody (fuel+1) n2 b theta f2 G2 =
        foldWalkO (fun c f => ONode.calculateForcesOnBody fuel c b theta f G2) n2.children f2) ∧
    (∀ (n2 : ONode) (G2 : ℚ) (f2 : Vec3), n2.isLeaf = true →
      ¬ (n2.mass = 0 ∨ n2.body = some b) →
      n2.centerOfMass.distanceSquared b.position ≠ 0 →
      ONode.calculateForcesOnBody (fuel+1) n2 b theta f2 G2 =
        some (f2.vadd (((n2.centerOfMass.vsub b.position).unitV).scale
          (G2 * n2.mass * b.mass / n2.centerOfMass.distanceSquared b.position)))) := by
  refine ⟨?_, ?_, ?_, ?_, ?_⟩
  · intro h
    rw [BNode.calcGravF, if_neg (by simp [h])]
  · intro h1 h2
    rw [BNode.calcGravF, if_pos h1, if_pos h2]
  · intro h1 h2
    rw [BNode.calcGravF, if_pos h1, if_neg h2]
  · intro n2 G2 f2 hl h0 hd
    rw [ONode.calculateForcesOnBody, if_neg h0, if_neg hd, if_neg (by simp [hl])]
  · intro n2 G2 f2 hl h0 hd
    rw [ONode.calculateForcesOnBody, if_neg h0, if_neg hd, if_pos hl]

/-- Claim C1 witness: the amended leaf equation evaluated on the concrete
    two-occupant leaf. -/
theorem claimC1_witness :
    BNode.calcGravF 1 1 twoBodyLeaf bTarget (1/2) Vec3.zero =
      some (BNode.leafGravity 1 twoBodyLeaf.bodies bTarget Vec3.zero) :=
  (claimC1_amended 0 1 twoBodyLeaf bTarget (1/2) Vec3.zero).1 (by rw [twoBodyLeaf_eq]; rfl)

/-- Claim C9 witness: rebuilding a one-body set twice gives the identical
    tree both times. -/
theorem claimC9_witness :
    Octree.rebuildF 1 (⟨1, BNode.mk Vec3.zero 50 1 ⟨1, 0, 0⟩ true [bAt1] []⟩ : Octree) [bAt1] =
      some ⟨1, BNode.mk Vec3.zero 50 1 ⟨1, 0, 0⟩ true [bAt1] []⟩ :=
  claimC9 1 (Octree.construct 100 1) ⟨1, BNode.mk Vec3.zero 50 1 ⟨1, 0, 0⟩ true [bAt1] []⟩ [bAt1]
    (by norm_num [Octree.rebuildF, Octree.construct, BNode.insertAllF, BNode.insertF,
      BNode.fresh, BNode.isLeaf, BNode.pushBody, BNode.bodies, BNode.updateMassDistribution,
      BNode.center, BNode.halfSize, MAX_BODIES_PER_NODE, bAt1, Vec3.zero, Vec3.mk.injEq,
      BNode.mk.injEq])

theorem childGeoms_get (cs : List BNode) (L : List (Vec3 × ℚ)) (hgeom : childGeoms cs = L)
    (i : ℕ) (hi : i < cs.length) :
    ((cs.get ⟨i, hi⟩).center, (cs.get ⟨i, hi⟩).halfSize) =
      L.get ⟨i, by rw [← hgeom, childGeoms, List.length_map]; exact hi⟩ := by
  subst hgeom
  simp only [childGeoms, List.get_eq_getElem, List.getElem_map]

theorem childGeoms_length (cs : List BNode) (c : Vec3) (h : ℚ)
    (hgeom : childGeoms cs = childGeoms (BNode.mkChildren c h)) : cs.length = 8 := by
  have := congrArg List.length hgeom
  simpa [childGeoms, BNode.mkChildren] using this

/-- Partition property of octree.js's subdivide geometry: whenever a point
    lies in a node's region, at least one of the 8 standard children's
    regions contains it (the children tile the parent exactly, with shared
    boundaries). -/
theorem BNode.exists_child_contains (c : Vec3) (h : ℚ) (p : Vec3) (cs : List BNode)
    (hgeom : childGeoms cs = childGeoms (BNode.mkChildren c h))
    (hin : boxContains c h p) :
    ∃ cc ∈ cs, cc.contains p := by
  obtain ⟨hx1, hx2, hy1, hy2, hz1, hz2⟩ := hin
  have hlen := childGeoms_length cs c h hgeom
  by_cases hx : c.x ≤ p.x <;> by_cases hy : c.y ≤ p.y <;> by_cases hz : c.z ≤ p.z
  · have hi : (7:ℕ) < cs.length := by omega
    refine ⟨cs.get ⟨7, hi⟩, List.get_mem cs 7 hi, ?_⟩
    have hg : ((cs.get ⟨7, hi⟩).center, (cs.get ⟨7, hi⟩).halfSize) =
        ((⟨c.x + h * (1/2), c.y + h * (1/2), c.z + h * (1/2)⟩ : Vec3), h * (1/2)) :=
      childGeoms_get cs _ hgeom 7 hi
    have hc' := congrArg Prod.fst hg
    have hh' := congrArg Prod.snd hg
    simp only at hc' hh'
    simp only [BNode.contains, boxContains, hc', hh']
    refine ⟨by linarith, by linarith, by linarith, by linarith, by linarith, by linarith⟩
  · have hi : (6:ℕ) < cs.length := by omega
    refine ⟨cs.get ⟨6, hi⟩, List.get_mem cs 6 hi, ?_⟩
    have hg : ((cs.get ⟨6, hi⟩).center, (cs.get ⟨6, hi⟩).halfSize) =
        ((⟨c.x + h * (1/2), c.y + h * (1/2), c.z - h * (1/2)⟩ : Vec3), h * (1/2)) :=
      childGeoms_get cs _ hgeom 6 hi
    have hc' := congrArg Prod.fst hg
    have hh' := congrArg Prod.snd hg
    simp only at hc' hh'
    simp only [BNode.contains, boxContains, hc', hh']
    refine ⟨by linarith, by linarith, by linarith, by linarith, by linarith, by linarith⟩
  · have hi : (5:ℕ) < cs.length := by omega
    refine ⟨cs.get ⟨5, hi⟩, List.get_mem cs 5 hi, ?_⟩
    have hg : ((cs.get ⟨5, hi⟩).center, (cs.get ⟨5, hi⟩).halfSize) =
        ((⟨c.x + h * (1/2), c.y - h * (1/2), c.z + h * (1/2)⟩ : Vec3), h * (1/2)) :=
      childGeoms_get cs _ hgeom 5 hi
    have hc' := congrArg Prod.fst hg
    have hh' := congrArg Prod.snd hg
    simp only at hc' hh'
    simp only [BNode.contains, boxContains, hc', hh']
    refine ⟨by linarith, by linarith, by linarith, by linarith, by linarith, by linarith⟩
  · have hi : (4:ℕ) < cs.length := by omega
    refine ⟨cs.get ⟨4, hi⟩, List.get_mem cs 4 hi, ?_⟩
    have hg : ((cs.get ⟨4, hi⟩).center, (cs.get ⟨4, hi⟩).halfSize) =
        ((⟨c.x + h * (1/2), c.y - h * (1/2), c.z - h * (1/2)⟩ : Vec3), h * (1/2)) :=
      childGeoms_get cs _ hgeom 4 hi
    have hc' := congrArg Prod.fst hg
    have hh' := congrArg Prod.snd hg
    simp only at hc' hh'
    simp only [BNode.contains, boxContains, hc', hh']
    refine ⟨by linarith, by linarith, by linarith, by linarith, by linarith, by linarith⟩
  · have hi : (3:ℕ) < cs.length := by omega
    refine ⟨cs.get ⟨3, hi⟩, List.get_mem cs 3 hi, ?_⟩
    have hg : ((cs.get ⟨3, hi⟩).center, (cs.get ⟨3, hi⟩).halfSize) =
        ((⟨c.x - h * (1/2), c.y + h * (1/2), c.z + h * (1/2)⟩ : Vec3), h * (1/2)) :=
      childGeoms_get cs _ hgeom 3 hi
    have hc' := congrArg Prod.fst hg
    have hh' := congrArg Prod.snd hg
    simp only at hc' hh'
    simp only [BNode.contains, boxContains, hc', hh']
    refine ⟨by linarith, by linarith, by linarith, by linarith, by linarith, by linarith⟩
  · have hi : (2:ℕ) < cs.length := by omega
    refine ⟨cs.get ⟨2, hi⟩, List.get_mem cs 2 hi, ?_⟩
    have hg : ((cs.get ⟨2, hi⟩).center, (cs.get ⟨2, hi⟩).halfSize) =
        ((⟨c.x - h * (1/2), c.y + h * (1/2), c.z - h * (1/2)⟩ : Vec3), h * (1/2)) :=
      childGeoms_get cs _ hgeom 2 hi
    have hc' := congrArg Prod.fst hg
    have hh' := congrArg Prod.snd hg
    simp only at hc' hh'
    simp only [BNode.contains, boxContains, hc', hh']
    refine ⟨by linarith, by linarith, by linarith, by linarith, by linarith, by linarith⟩
  · have hi : (1:ℕ) < cs.length := by omega
    refine ⟨cs.get ⟨1, hi⟩, List.get_mem cs 1 hi, ?_⟩
    have hg : ((cs.get ⟨1, hi⟩).center, (cs.get ⟨1, hi⟩).halfSize) =
        ((⟨c.x - h * (1/2), c.y - h * (1/2), c.z + h * (1/2)⟩ : Vec3), h * (1/2)) :=
      childGeoms_get cs _ hgeom 1 hi
    have hc' := congrArg Prod.fst hg
    have hh' := congrArg Prod.snd hg
    simp only at hc' hh'
    simp only [BNode.contains, boxContains, hc', hh']
    refine ⟨by linarith, by linarith, by linarith, by linarith, by linarith, by linarith⟩
  · have hi : (0:ℕ) < cs.length := by omega
    refine ⟨cs.get ⟨0, hi⟩, List.get_mem cs 0 hi, ?_⟩
    have hg : ((cs.get ⟨0, hi⟩).center, (cs.get ⟨0, hi⟩).halfSize) =
        ((⟨c.x - h * (1/2), c.y - h * (1/2), c.z - h * (1/2)⟩ : Vec3), h * (1/2)) :=
      childGeoms_get cs _ hgeom 0 hi
    have hc' := congrArg Prod.fst hg
    have hh' := congrArg Prod.snd hg
    simp only at hc' hh'
    simp only [BNode.contains, boxContains, hc', hh']
    refine ⟨by linarith, by linarith, by linarith, by linarith, by linarith, by linarith⟩

theorem massSum_nil : massSum [] = 0 := rfl

theorem massSum_cons (b : Body) (bs : List Body) :
    massSum (b :: bs) = b.mass + massSum bs := by
  simp [massSum]

theorem massSum_append_singleton (bs : List Body) (b : Body) :
    massSum (bs ++ [b]) = massSum bs + b.mass := by
  simp [massSum]

theorem BNode.fresh_inv (c : Vec3) (h : ℚ) : BNode.Inv (BNode.fresh c h) := by
  refine BNode.Inv.mk _ (fun _ => rfl) (fun hcontra => absurd hcontra (by simp [BNode.fresh, BNode.isLeaf])) ?_ ?_ ?_
  · intro b hb
    exact absurd hb (List.not_mem_nil b)
  · simp [BNode.fresh, BNode.mass, BNode.bodies, BNode.children, massSum]
  · intro x hx
    exact absurd hx (List.not_mem_nil x)

theorem BNode.mkChildren_inv (c : Vec3) (h : ℚ) :
    ∀ x ∈ BNode.mkChildren c h, BNode.Inv x := by
  intro x hx
  simp only [BNode.mkChildren, List.mem_cons, List.not_mem_nil, or_false] at hx
  rcases hx with rfl | rfl | rfl | rfl | rfl | rfl | rfl | rfl <;> exact BNode.fresh_inv _ _

theorem BNode.mkChildren_massSum (c : Vec3) (h : ℚ) :
    (((BNode.mkChildren c h).map BNode.mass)).sum = 0 := by
  simp [BNode.mkChildren, BNode.fresh, BNode.mass]

/-- Correctness of `_insertIntoChild` given correctness of the recursive
    insert: when some child contains the body, the insert lands in the first
    such child; the children keep their geometry and invariants and their
    mass total grows by the body's mass. -/
theorem BNode.insertIntoChild_spec (ins : BNode → Body → Option BNode) (b : Body)
    (Hins : ∀ c c', c.contains b.position → BNode.Inv c → ins c b = some c' →
      BNode.Inv c' ∧ c'.mass = c.mass + b.mass ∧ c'.center = c.center ∧ c'.halfSize = c.halfSize) :
    ∀ (cs cs' : List BNode), (∀ c ∈ cs, BNode.Inv c) → (∃ c ∈ cs, c.contains b.position) →
      BNode.insertIntoChild ins cs b = some cs' →
      (∀ c ∈ cs', BNode.Inv c) ∧
      (cs'.map BNode.mass).sum = (cs.map BNode.mass).sum + b.mass ∧
      childGeoms cs' = childGeoms cs := by
  intro cs
  induction cs with
  | nil =>
    intro cs' _ hex _
    rcases hex with ⟨c, hc, _⟩
    exact absurd hc (List.not_mem_nil c)
  | cons c rest ih =>
    intro cs' hinv hex hins
    rw [BNode.insertIntoChild] at hins
    by_cases hc : c.contains b.position
    · rw [if_pos hc] at hins
      rcases Option.map_eq_some'.mp hins with ⟨c', hc', rfl⟩
      have hspec := Hins c c' hc (hinv c (by simp)) hc'
      refine ⟨?_, ?_, ?_⟩
      · intro x hx
        rcases List.mem_cons.mp hx with rfl | hx
        · exact hspec.1
        · exact hinv x (by simp [hx])
      · simp only [List.map_cons, List.sum_cons, hspec.2.1]
        ring
      · simp only [childGeoms, List.map_cons, hspec.2.2.1, hspec.2.2.2]
    · rw [if_neg hc] at hins
      rcases Option.map_eq_some'.mp hins with ⟨rest', hrest, rfl⟩
      have hex' : ∃ x ∈ rest, x.contains b.position := by
        rcases hex with ⟨x, hx, hxc⟩
        rcases List.mem_cons.mp hx with rfl | hx
        · exact absurd hxc hc
        · exact ⟨x, hx, hxc⟩
      have hspec := ih rest' (fun x hx => hinv x (by simp [hx])) hex' hrest
      refine ⟨?_, ?_, ?_⟩
      · intro x hx
        rcases List.mem_cons.mp hx with rfl | hx
        · exact hinv x (by simp)
        · exact hspec.1 x hx
      · simp only [List.map_cons, List.sum_cons, hspec.2.1]
        ring
      · have hgr := hspec.2.2
        simp only [childGeoms] at hgr
        simp only [childGeoms, List.map_cons, hgr]

theorem foldl_insertIntoChild_none (ins : BNode → Body → Option BNode) :
    ∀ (bodies : List Body),
      bodies.foldl (fun acc bd => acc.bind fun l => BNode.insertIntoChild ins l bd)
        (none : Option (List BNode)) = none := by
  intro bodies
  induction bodies with
  | nil => rfl
  | cons bd rest ih => simpa using ih

/-- Moving a list of bodies into standard-geometry children (the loop of
    subdivide): invariants and geometry are preserved and the children's
    total mass grows by the moved bodies' total mass. -/
theorem BNode.moveBodies_spec (ins : BNode → Body → Option BNode) (c : Vec3) (h : ℚ)
    (Hins : ∀ (bd : Body) c0 c0', c0.contains bd.position → BNode.Inv c0 →
      ins c0 bd = some c0' →
      BNode.Inv c0' ∧ c0'.mass = c0.mass + bd.mass ∧ c0'.center = c0.center ∧
        c0'.halfSize = c0.halfSize) :
    ∀ (bodies : List Body) (cs cs' : List BNode),
      (∀ x ∈ cs, BNode.Inv x) →
      childGeoms cs = childGeoms (BNode.mkChildren c h) →
      (∀ bd ∈ bodies, boxContains c h bd.position) →
      bodies.foldl (fun acc bd => acc.bind fun l => BNode.insertIntoChild ins l bd)
        (some cs) = some cs' →
      (∀ x ∈ cs', BNode.Inv x) ∧
      childGeoms cs' = childGeoms (BNode.mkChildren c h) ∧
      (cs'.map BNode.mass).sum = (cs.map BNode.mass).sum + massSum bodies := by
  intro bodies
  induction bodies with
  | nil =>
    intro cs cs' hinv hgeom _ hfold
    injection hfold with hf
    subst hf
    refine ⟨hinv, hgeom, by simp [massSum]⟩
  | cons bd rest ih =>
    intro cs cs' hinv hgeom hcont hfold
    rw [List.foldl_cons] at hfold
    simp only [Option.some_bind] at hfold
    cases hstep : BNode.insertIntoChild ins cs bd with
    | none =>
      rw [hstep, foldl_insertIntoChild_none] at hfold
      exact Option.noConfusion hfold
    | some cs1 =>
      rw [hstep] at hfold
      have hex : ∃ cc ∈ cs, cc.contains bd.position :=
        BNode.exists_child_contains c h bd.position cs hgeom (hcont bd (by simp))
      have hspec := BNode.insertIntoChild_spec ins bd (fun c0 c0' => Hins bd c0 c0')
        cs cs1 hinv hex hstep
      have hrest := ih cs1 cs' hspec.1 (hspec.2.2.trans hgeom)
        (fun x hx => hcont x (by simp [hx])) hfold
      refine ⟨hrest.1, hrest.2.1, ?_⟩
      rw [hrest.2.2, hspec.2.1, massSum_cons]
      ring

/-- The heart of claim C2: one fuelled insert of a body contained in the
    node's region preserves the rebuild invariant, adds exactly the body's
    mass to the node's aggregate, and keeps the node's geometry. -/
theorem BNode.insertF_inv :
    ∀ (fuel : ℕ) (n : BNode) (b : Body) (n' : BNode),
      BNode.Inv n → n.contains b.position →
      BNode.insertF fuel n b = some n' →
      BNode.Inv n' ∧ n'.mass = n.mass + b.mass ∧
        n'.center = n.center ∧ n'.halfSize = n.halfSize := by
  intro fuel
  induction fuel with
  | zero => intro n b n' _ _ h; exact Option.noConfusion h
  | succ fuel ih =>
    intro n b n' hInv hcont h
    obtain ⟨h1, h2, h3, h4, h5⟩ :
        (n.isLeaf = true → n.children = []) ∧
        (n.isLeaf = false → n.bodies = [] ∧
          childGeoms n.children = childGeoms (BNode.mkChildren n.center n.halfSize)) ∧
        (∀ bd ∈ n.bodies, n.contains bd.position) ∧
        n.mass = massSum n.bodies + (n.children.map BNode.mass).sum ∧
        (∀ c ∈ n.children, BNode.Inv c) := by
      rcases hInv with ⟨_, a1, a2, a3, a4, a5⟩
      exact ⟨a1, a2, a3, a4, a5⟩
    rw [BNode.insertF] at h
    rcases Option.bind_eq_some.mp h with ⟨n2, hbr, htail⟩
    by_cases hl : n.isLeaf = false
    · -- internal node: descend into the first containing child
      rw [if_pos hl] at hbr
      rcases Option.map_eq_some'.mp hbr with ⟨cs', hcs, rfl⟩
      obtain ⟨hbnil, hgeom⟩ := h2 hl
      have hex : ∃ cc ∈ n.children, cc.contains b.position :=
        BNode.exists_child_contains n.center n.halfSize b.position n.children hgeom hcont
      have hspec := BNode.insertIntoChild_spec (BNode.insertF fuel) b
        (fun c c' a1 a2 a3 => ih c b c' a2 a1 a3) n.children cs' h5 hex hcs
      have hfieldsW := BNode.withChildren_fields n cs'
      have hml : ((n.withChildren cs').updateMassDistribution b).isLeaf = false := by
        rw [BNode.updateMassDistribution_isLeaf, hfieldsW.2.2.2.1, hl]
      rw [if_neg (fun hco => by rw [hml] at hco; exact absurd hco.1 (by simp))] at htail
      injection htail with ht
      subst ht
      have hmass' : ((n.withChildren cs').updateMassDistribution b).mass = n.mass + b.mass := by
        rw [BNode.updateMassDistribution_mass, hfieldsW.2.2.1]
      have hcen : ((n.withChildren cs').updateMassDistribution b).center = n.center := by
        rw [BNode.updateMassDistribution_center, hfieldsW.1]
      have hhs : ((n.withChildren cs').updateMassDistribution b).halfSize = n.halfSize := by
        rw [BNode.updateMassDistribution_halfSize, hfieldsW.2.1]
      have hbod : ((n.withChildren cs').updateMassDistribution b).bodies = n.bodies := by
        rw [BNode.updateMassDistribution_bodies, hfieldsW.2.2.2.2.1]
      have hchil : ((n.withChildren cs').updateMassDistribution b).children = cs' := by
        rw [BNode.updateMassDistribution_children, hfieldsW.2.2.2.2.2]
      refine ⟨?_, hmass', hcen, hhs⟩
      refine BNode.Inv.mk _ ?_ ?_ ?_ ?_ ?_
      · intro hco; rw [hml] at hco; exact absurd hco (by simp)
      · intro _
        refine ⟨by rw [hbod, hbnil], ?_⟩
        rw [hchil, hcen, hhs, hspec.2.2, hgeom]
      · intro bd hbd
        rw [hbod, hbnil] at hbd
        exact absurd hbd (List.not_mem_nil bd)
      · rw [hmass', hbod, hbnil, hchil, hspec.2.1, h4, hbnil, massSum_nil]
        ring
      · rw [hchil]; exact hspec.1
    · -- leaf node: push into the bucket, subdividing on overflow
      have hl' : n.isLeaf = true := by revert hl; cases n.isLeaf <;> simp
      rw [if_neg hl] at hbr
      have hchilnil := h1 hl'
      have hfieldsP := BNode.pushBody_fields n b
      have h4' : n.mass = massSum n.bodies := by
        rw [h4, hchilnil]; simp
      by_cases hlen : (n.pushBody b).bodies.length > MAX_BODIES_PER_NODE
      · -- overflow: subdivide and move the bucket into the fresh children
        rw [if_pos hlen, BNode.subdivideGo, hfieldsP.1, hfieldsP.2.1,
          hfieldsP.2.2.1, hfieldsP.2.2.2.2.1] at hbr
        rcases Option.map_eq_some'.mp hbr with ⟨cs', hfold, rfl⟩
        have hcontAll : ∀ bd ∈ n.bodies ++ [b], boxContains n.center n.halfSize bd.position := by
          intro bd hbd
          rcases List.mem_append.mp hbd with hbd | hbd
          · exact h3 bd hbd
          · rcases List.mem_singleton.mp hbd with rfl
            exact hcont
        have hmove := BNode.moveBodies_spec (BNode.insertF fuel) n.center n.halfSize
          (fun bd c0 c0' a1 a2 a3 => ih c0 bd c0' a2 a1 a3)
          (n.bodies ++ [b]) (BNode.mkChildren n.center n.halfSize) cs'
          (BNode.mkChildren_inv n.center n.halfSize) rfl hcontAll hfold
        have hml : ((BNode.mk n.center n.halfSize n.mass (n.pushBody b).com false [] cs').updateMassDistribution b).isLeaf = false := by
          rw [BNode.updateMassDistribution_isLeaf]; rfl
        rw [if_neg (fun hco => by rw [hml] at hco; exact absurd hco.1 (by simp))] at htail
        injection htail with ht
        subst ht
        have hsum' : (cs'.map BNode.mass).sum = massSum n.bodies + b.mass := by
          rw [hmove.2.2, BNode.mkChildren_massSum, massSum_append_singleton]
          ring
        refine ⟨?_, by rw [BNode.updateMassDistribution_mass]; exact rfl,
          by rw [BNode.updateMassDistribution_center]; exact rfl,
          by rw [BNode.updateMassDistribution_halfSize]; exact rfl⟩
        refine BNode.Inv.mk _ ?_ ?_ ?_ ?_ ?_
        · intro hco; rw [hml] at hco; exact absurd hco (by simp)
        · intro _
          refine ⟨by rw [BNode.updateMassDistribution_bodies]; exact rfl, ?_⟩
          rw [BNode.updateMassDistribution_children, BNode.updateMassDistribution_center,
            BNode.updateMassDistribution_halfSize]
          exact hmove.2.1
        · intro bd hbd
          rw [BNode.updateMassDistribution_bodies] at hbd
          exact absurd hbd (List.not_mem_nil bd)
        · rw [BNode.updateMassDistribution_mass, BNode.updateMassDistribution_bodies,
            BNode.updateMassDistribution_children]
          show n.mass + b.mass = massSum [] + (cs'.map BNode.mass).sum
          rw [massSum_nil, hsum', h4']
          ring
        · rw [BNode.updateMassDistribution_children]
          exact hmove.1
      · -- no overflow: the body stays in the bucket
        rw [if_neg hlen] at hbr
        injection hbr with hb2
        subst hb2
        have hml : ((n.pushBody b).updateMassDistribution b).isLeaf = true := by
          rw [BNode.updateMassDistribution_isLeaf, hfieldsP.2.2.2.1, hl']
        have hbodies' : ((n.pushBody b).updateMassDistribution b).bodies = n.bodies ++ [b] := by
          rw [BNode.updateMassDistribution_bodies, hfieldsP.2.2.2.2.1]
        rw [if_neg (fun hco => hlen (by
          rw [hbodies'] at hco
          rw [hfieldsP.2.2.2.2.1]
          exact hco.2))] at htail
        injection htail with ht
        subst ht
        have hcen : ((n.pushBody b).updateMassDistribution b).center = n.center := by
          rw [BNode.updateMassDistribution_center, hfieldsP.1]
        have hhs : ((n.pushBody b).updateMassDistribution b).halfSize = n.halfSize := by
          rw [BNode.updateMassDistribution_halfSize, hfieldsP.2.1]
        have hchil : ((n.pushBody b).updateMassDistribution b).children = [] := by
          rw [BNode.updateMassDistribution_children, hfieldsP.2.2.2.2.2, hchilnil]
        refine ⟨?_, by rw [BNode.updateMassDistribution_mass, hfieldsP.2.2.1], hcen, hhs⟩
        refine BNode.Inv.mk _ ?_ ?_ ?_ ?_ ?_
        · intro _; exact hchil
        · intro hco; rw [hml] at hco; exact absurd hco (by simp)
        · intro bd hbd
          rw [hbodies'] at hbd
          show boxContains ((n.pushBody b).updateMassDistribution b).center
            ((n.pushBody b).updateMassDistribution b).halfSize bd.position
          rw [hcen, hhs]
          rcases List.mem_append.mp hbd with hbd | hbd
          · exact h3 bd hbd
          · rcases List.mem_singleton.mp hbd with rfl
            exact hcont
        · rw [BNode.updateMassDistribution_mass, hfieldsP.2.2.1, hbodies', hchil,
            massSum_append_singleton, h4']
          simp
        · intro x hx
          rw [hchil] at hx
          exact absurd hx (List.not_mem_nil x)

theorem BNode.insertAllF_inv :
    ∀ (bs : List Body) (fuel : ℕ) (n t : BNode),
      BNode.Inv n → (∀ b ∈ bs, n.contains b.position) →
      BNode.insertAllF fuel n bs = some t →
      BNode.Inv t ∧ t.mass = n.mass + massSum bs := by
  intro bs
  induction bs with
  | nil =>
    intro fuel n t hInv _ h
    injection h with h'
    subst h'
    exact ⟨hInv, by rw [massSum_nil]; ring⟩
  | cons b rest ih =>
    intro fuel n t hInv hcont h
    rw [BNode.insertAllF] at h
    rcases Option.bind_eq_some.mp h with ⟨n1, h1, h2⟩
    have hstep := BNode.insertF_inv fuel n b n1 hInv (hcont b (by simp)) h1
    have hcont1 : ∀ x ∈ rest, n1.contains x.position := by
      intro x hx
      show boxContains n1.center n1.halfSize x.position
      rw [hstep.2.2.1, hstep.2.2.2]
      exact hcont x (by simp [hx])
    have hrest := ih fuel n1 t hstep.1 hcont1 h2
    refine ⟨hrest.1, ?_⟩
    rw [hrest.2, hstep.2.1, massSum_cons]
    ring

theorem BNode.Inv.massCorrect : ∀ {n : BNode}, BNode.Inv n → BNode.MassCorrect n := by
  intro n h
  induction h with
  | mk n h1 h2 h3 h4 h5 ih => exact BNode.MassCorrect.mk n h4 ih

/-- Claim C2 (confirmed): rebuilding from a body set whose positions all lie
    within the root's bounds yields a tree in which every node's aggregate
    mass equals the total mass of the bodies stored in its subtree (its own
    bucket plus its children's aggregates, recursively), and in particular
    the root's mass is the sum of all inserted masses — exactly, in exact
    arithmetic. -/
theorem claimC2 (fuel : ℕ) (o : Octree) (bs : List Body) (t : Octree)
    (hin : ∀ b ∈ bs, boxContains o.root.center o.root.halfSize b.position)
    (h : Octree.rebuildF fuel o bs = some t) :
    BNode.MassCorrect t.root ∧ t.root.mass = massSum bs := by
  rw [Octree.rebuildF] at h
  rcases Option.map_eq_some'.mp h with ⟨r, hr, rfl⟩
  have hres := BNode.insertAllF_inv bs fuel (BNode.fresh o.root.center o.root.halfSize) r
    (BNode.fresh_inv _ _) (fun b hb => hin b hb) hr
  refine ⟨hres.1.massCorrect, ?_⟩
  show r.mass = massSum bs
  rw [hres.2]
  show (0:ℚ) + massSum bs = massSum bs
  ring

/-- Claim C2 witness: a concrete two-body rebuild with mass-correct
    aggregates summing to 2. -/
theorem claimC2_witness :
    BNode.MassCorrect (Octree.mk 1 (BNode.mk Vec3.zero 50 2 ⟨2, 0, 0⟩ true [bAt1, bAt3] [])).root ∧
    (Octree.mk 1 (BNode.mk Vec3.zero 50 2 ⟨2, 0, 0⟩ true [bAt1, bAt3] [])).root.mass =
      massSum [bAt1, bAt3] :=
  claimC2 3 (Octree.construct 100 1) [bAt1, bAt3]
    (Octree.mk 1 (BNode.mk Vec3.zero 50 2 ⟨2, 0, 0⟩ true [bAt1, bAt3] []))
    (by
      intro b hb
      fin_cases hb <;>
        norm_num [boxContains, Octree.construct, BNode.fresh, BNode.center, BNode.halfSize,
          bAt1, bAt3, Vec3.zero])
    (by norm_num [Octree.rebuildF, Octree.construct, BNode.insertAllF, BNode.insertF,
      BNode.fresh, BNode.isLeaf, BNode.pushBody, BNode.bodies, BNode.updateMassDistribution,
      BNode.center, BNode.halfSize, MAX_BODIES_PER_NODE, bAt1, bAt3, Vec3.zero,
      Vec3.mk.injEq, BNode.mk.injEq])
